import Mathlib

/-!
# Verification of the kubernetes-ipfs step-execution engine

A shallow embedding of the core of `main.go` from the kubernetes-ipfs test
driver: the step executor (`handleStep`), the assertion resolver (the
environment-scanning loop at main.go 227-245), the outcome evaluator
(`evaluateOutcome`), the remote-output line splitting of `runInPod` /
`runInPodAsync`, and the test-runner loop of `main`.

Strings are modelled as `List Char` (Go strings at the character level).
The external cluster (kubectl) is abstracted: each remote invocation's
observable result is a `StepResult` (captured stdout lines plus a timed-out
flag), and the per-repetition, per-step result lists are supplied as inputs.
File appends performed by a step are modelled as an explicit list of
(path, content) write events rather than a real filesystem effect.
-/

namespace KIPFS

/-- One serialized environment entry, e.g. the characters of `NAME="value"`
(Go: `[]string` env in `main.go`). -/
abbrev EnvEntry := List Char

/-- `Output` of main.go (an output-binding declaration of a step):
`line`, `save_to`, `save_to_file`. -/
structure Output where
  Line : Nat
  SaveTo : List Char
  SaveToFile : List Char
deriving DecidableEq, Repr

/-- `Assertion` of main.go: `line`, `should_be_equal_to`. -/
structure Assertion where
  Line : Nat
  ShouldBeEqualTo : List Char
deriving DecidableEq, Repr

/-- `Step` of main.go (the fields the step executor reads). -/
structure Step where
  Name : List Char
  OnNode : Nat
  EndNode : Nat
  CMD : List Char
  Timeout : Nat
  Outputs : List Output
  Assertions : List Assertion
  WriteToFile : List Char
deriving DecidableEq, Repr

/-- The counter fields of `Summary` in main.go (timestamps are omitted:
they are wall-clock side data never read by the logic under proof). -/
structure Summary where
  Successes : Int
  Failures : Int
  TestsToRun : Int
  TestsRan : Int
  Timeouts : Int
deriving DecidableEq, Repr

/-- `Expected` of main.go. -/
structure Expected where
  Successes : Int
  Failures : Int
  Timeouts : Int
deriving DecidableEq, Repr

/-- The observable result of one remote invocation: captured stdout lines and
whether the timeout fired (the pair a `runInPodAsync` goroutine feeds into
`outputStrings` / `outputErr`, read back at main.go 195-196). -/
structure StepResult where
  out : List (List Char)
  timedOut : Bool
deriving DecidableEq, Repr

/-! ## Line splitting (main.go 361-367 and 405-407)

`strings.Split(s, "\n")`: split at every newline; a string with `n`
newlines yields `n+1` pieces, so `""` yields `[""]`. -/

/-- Go's `strings.Split(s, "\n")` on the character list of `s`. -/
def splitLines : List Char → List (List Char)
  | [] => [[]]
  | c :: rest =>
    if c = '\n' then [] :: splitLines rest
    else
      match splitLines rest with
      | [] => [[c]]
      | l :: ls => (c :: l) :: ls

/-- The lines a `runInPodAsync` goroutine hands to the step executor
(main.go 364: `lines = strings.Split(out.String(), "\n")`, no element
dropped). -/
def runInPodAsyncLines (stdout : List Char) : List (List Char) :=
  splitLines stdout

/-- The lines `runInPod` returns (main.go 405-406:
`lines := strings.Split(out.String(), "\n") ... lines[:len(lines)-1]`,
the last piece dropped unconditionally). -/
def runInPodLines (stdout : List Char) : List (List Char) :=
  (splitLines stdout).dropLast

/-! ## The assertion resolver (main.go 227-245)

The code interpolates the assertion's `should_be_equal_to` string, unescaped,
into the pattern `^target="(.*)"$` (regexp.MustCompile) and runs
`FindStringSubmatch` over each serialized environment entry in order,
keeping the first non-empty capture.

We embed Go regexp semantics for the fragment of patterns that this
interpolation can produce from targets built of plain characters, `.`, and
`X*` repetitions: the pattern is `^` ++ target ++ `="(.*)"$`, anchored on
both sides, with one greedy capture group whose `.` does not match a
newline. Targets containing other regex metacharacters (`\ ^ $ [ ] ( ) { }
+ ? |`) are outside the embedded fragment, and the resolver returns `none`
for them. -/

/-- A regex atom of the embedded fragment: a literal character or `.`. -/
inductive RAtom where
  | lit : Char → RAtom
  | dot : RAtom
deriving DecidableEq, Repr

/-- An element of the embedded fragment: one atom, or a starred atom. -/
inductive RElem where
  | one : RAtom → RElem
  | star : RAtom → RElem
deriving DecidableEq, Repr

/-- Whether atom `a` matches character `c` (`.` matches any non-newline). -/
def matchAtom : RAtom → Char → Bool
  | .lit d, c => d = c
  | .dot, c => ¬ (c = '\n')

/-- Regex metacharacters whose behaviour we do not embed (everything except
`.` and `*`, which the parser handles). -/
def unmodeledChar (c : Char) : Bool :=
  c ∈ ['\\', '^', '$', '[', ']', '(', ')', '\x7b', '\x7d', '+', '?', '|']

/-- Compile a target string into the embedded fragment; `none` when the
target uses an unmodelled metacharacter or an invalid repetition (Go's
`MustCompile` panics on the latter). -/
def parseRex : List Char → Option (List RElem)
  | [] => some []
  | c :: rest =>
    if unmodeledChar c ∨ c = '*' then none
    else
      let a := if c = '.' then RAtom.dot else RAtom.lit c
      match rest with
      | d :: rest2 =>
        if d = '*' then (parseRex rest2).map (fun es => RElem.star a :: es)
        else (parseRex (d :: rest2)).map (fun es => RElem.one a :: es)
      | [] => some [RElem.one a]

/-- Remainders of `s` after the starred atom `a` consumes a prefix, in
greedy (longest-consumption-first) backtracking order. -/
def starRems (a : RAtom) : List Char → List (List Char)
  | [] => [[]]
  | c :: s => if matchAtom a c then starRems a s ++ [c :: s] else [c :: s]

/-- Remainders of `s` after the element list consumes a prefix, in greedy
backtracking order. -/
def seqRems : List RElem → List Char → List (List Char)
  | [], s => [s]
  | .one _ :: _, [] => []
  | .one a :: es, c :: s => if matchAtom a c then seqRems es s else []
  | .star a :: es, s => (starRems a s).flatMap (fun r => seqRems es r)

/-- Match the fixed pattern suffix `="(.*)"$` against a remainder and return
the group's capture: the remainder must be `=` `"` capture `"` with the
closing quote the final character (the `$` anchor) and the greedy capture
free of newlines (`.` does not cross lines). -/
def capAfterEq (r : List Char) : Option (List Char) :=
  match r with
  | c1 :: c2 :: rest =>
    if c1 = '=' ∧ c2 = '"' then
      if rest.getLast? = some '"' ∧ '\n' ∉ rest.dropLast then
        some rest.dropLast
      else none
    else none
  | _ => none

/-- `FindStringSubmatch` of the pattern `^target="(.*)"$` against entry `e`:
the capture of the first successful decomposition in backtracking order. -/
def findCap (elems : List RElem) (e : List Char) : Option (List Char) :=
  (seqRems elems e).findSome? capAfterEq

/-- The environment scan of main.go 231-240: take the first entry whose
match has a non-empty capture; entries that match with an empty capture are
passed over (Go keeps `value == ""` and continues). Returns `[]` when no
entry qualifies. -/
def scanEnv (elems : List RElem) : List EnvEntry → List Char
  | [] => []
  | e :: env =>
    match findCap elems e with
    | some cap => if cap = [] then scanEnv elems env else cap
    | none => scanEnv elems env

/-- The assertion resolver (main.go 227-245): scan the environment with
`^target="(.*)"$`; if the scan yields nothing, fall back to the literal
target (main.go 243-244). `none` when the target is outside the embedded
regex fragment. -/
def resolveTarget (target : List Char) (env : List EnvEntry) : Option (List Char) :=
  (parseRex target).map (fun elems =>
    let v := scanEnv elems env
    if v = [] then target else v)

/-- Serialization of a binding as the step executor appends it
(main.go 217: `output.SaveTo + "=\"" + line + "\""`). -/
def serializeBinding (name value : List Char) : EnvEntry :=
  name ++ '=' :: '"' :: (value ++ ['"'])

/-- A character the regex interpolation treats as a plain literal and the
binding serialization cannot confuse: no regex metacharacter, no `=`, no
quote, no newline. -/
def PlainChar (c : Char) : Prop :=
  unmodeledChar c = false ∧ c ≠ '.' ∧ c ≠ '*' ∧ c ≠ '=' ∧ c ≠ '"' ∧ c ≠ '\n'

instance : DecidablePred PlainChar := fun c => by
  unfold PlainChar
  infer_instance

/-- The compiled form of an all-literal target. -/
def litElems (t : List Char) : List RElem :=
  t.map (fun c => RElem.one (RAtom.lit c))

/-- Follows the spec's words (§4.2): scan the bindings in order for the
first whose name equals the target and whose value is non-empty and use
that binding's value; treat the target as a literal when there is none.
Stated over (name, value) pairs, for comparison with `resolveTarget` run on
their serializations. -/
def specResolve (target : List Char) : List (List Char × List Char) → List Char
  | [] => target
  | b :: bs => if b.1 = target ∧ b.2 ≠ [] then b.2 else specResolve target bs

/-- The scan part of `specResolve`, with the not-found outcome kept as `[]`
(the shape of the source's `value` accumulator before the literal
fallback at main.go 243-244). -/
def specScan (target : List Char) : List (List Char × List Char) → List Char
  | [] => []
  | b :: bs => if b.1 = target ∧ b.2 ≠ [] then b.2 else specScan target bs

/-! ## The step executor (main.go 173-261)

Dispatch (188-191) and result collection (194-259) are embedded separately:
`dispatchTargets` gives the pod names the loop at 188-191 hands to
`runInPodAsync`, and `handleResults` processes the collected results in
arrival order. The two result channels of the source are modelled as one
list of paired `StepResult`s (spec §9 treats the dual-channel handoff as an
implementation detail of this fan-in). -/

/-- `numNodes := endNode - step.OnNode + 1` (main.go 182), as the count of
loop iterations of `for j := step.OnNode; j <= endNode; j++`. -/
def numNodes (step : Step) : Nat :=
  step.EndNode + 1 - step.OnNode

/-- The node indices `j` the dispatch and collection loops run over. -/
def nodeRange (step : Step) : List Nat :=
  List.range' step.OnNode (numNodes step)

/-- The pod name handed to `runInPodAsync` for each loop index `j`
(main.go 188-191): the source indexes `pods.Items[step.OnNode-1]` inside the
loop, so `j` is unused. Out-of-range indexing (a Go panic) is modelled by
the empty name. -/
def dispatchTargets (pods : List (List Char)) (step : Step) : List (List Char) :=
  (nodeRange step).map (fun _ => pods.getD (step.OnNode - 1) [])

/-- The pod names the spec's step contract calls for: the handle at
(1-based) position `j` for every `j` in the node range. Stated from the
spec's words, for comparison with `dispatchTargets`. -/
def specDispatchTargets (pods : List (List Char)) (step : Step) : List (List Char) :=
  (nodeRange step).map (fun j => pods.getD (j - 1) [])

/-- The output-binding loop (main.go 209-218): `for index, output :=
range step.Outputs`, bailing out when `index >= len(out)` and otherwise
appending `output.SaveTo="out[index]"` — the *positional* index, not
`output.Line`, selects the captured line. `index` is the position of the
first remaining binding in the original outputs list. -/
def processOutputsFrom (index : Nat) (outputs : List Output) (out : List (List Char))
    (env : List EnvEntry) : List EnvEntry :=
  match outputs with
  | [] => env
  | o :: rest =>
    if index ≥ out.length then env
    else processOutputsFrom (index + 1) rest out
      (env ++ [serializeBinding o.SaveTo (out.getD index [])])

/-- The assertion loop (main.go 220-257): bail out when `assertion.Line >=
len(out)`; otherwise resolve the target against the current environment and
compare `out[assertion.Line]` to it, counting a success or a failure.
`none` when some resolved target is outside the embedded regex fragment. -/
def processAssertions (assertions : List Assertion) (out : List (List Char))
    (env : List EnvEntry) (summary : Summary) : Option Summary :=
  match assertions with
  | [] => some summary
  | a :: rest =>
    if a.Line ≥ out.length then some summary
    else
      (resolveTarget a.ShouldBeEqualTo env).bind (fun value =>
        if out.getD a.Line [] = value then
          processAssertions rest out env { summary with Successes := summary.Successes + 1 }
        else
          processAssertions rest out env { summary with Failures := summary.Failures + 1 })

/-- Processing of one collected result (the body of the loop at main.go
194-259): a timed-out result increments `Timeouts` and skips everything
else (197-199); otherwise the raw output is appended to `WriteToFile` when
one is set (201-208, modelled as a write event `(path, joined lines)`),
output bindings extend the environment, and assertions update the summary.
Returns `(env, summary, write events)`. -/
def processResult (step : Step) (r : StepResult) (env : List EnvEntry)
    (summary : Summary) : Option (List EnvEntry × Summary × List (List Char × List Char)) :=
  if r.timedOut then
    some (env, { summary with Timeouts := summary.Timeouts + 1 }, [])
  else
    let writes := if step.WriteToFile ≠ [] then
        [(step.WriteToFile, List.intercalate ['\n'] r.out)] else []
    let env2 := processOutputsFrom 0 step.Outputs r.out env
    (processAssertions step.Assertions r.out env2 summary).map
      (fun s2 => (env2, s2, writes))

/-- The fan-in loop of main.go 194-259 over the collected results in arrival
order. -/
def handleResults (step : Step) (results : List StepResult) (env : List EnvEntry)
    (summary : Summary) : Option (List EnvEntry × Summary × List (List Char × List Char)) :=
  match results with
  | [] => some (env, summary, [])
  | r :: rest =>
    (processResult step r env summary).bind (fun res =>
      (handleResults step rest res.1 res.2.1).map (fun res2 =>
        (res2.1, res2.2.1, res.2.2 ++ res2.2.2)))

/-- `handleStep` (main.go 173-261), with the remote side abstracted: the
channel reads consume exactly `numNodes` results, in arrival order, from
the stream `results`. -/
def handleStep (step : Step) (results : List StepResult) (env : List EnvEntry)
    (summary : Summary) : Option (List EnvEntry × Summary × List (List Char × List Char)) :=
  handleResults step (results.take (numNodes step)) env summary

/-! ## Timeout flag (main.go 344-359 / 386-400) -/

/-- Modelled from the timer logic of `runInPodAsync` and `runInPod`: when
`timeout == 0` no `time.AfterFunc` timer is installed and `timeout_reached`
is never assigned, so the flag stays `false`; when `timeout != 0` the timer
kills the process and sets the flag exactly when the command has not
completed within `timeout` seconds. Real time is abstracted into the
command's duration in seconds (`none` = the command never completes); the
race at a duration exactly equal to the timeout is not modelled. -/
def timeoutReached (timeout : Nat) (duration : Option Nat) : Bool :=
  if timeout = 0 then false
  else
    match duration with
    | none => true
    | some d => timeout < d

/-! ## Outcome evaluation (main.go 459-471) and the runner loop (106-171) -/

/-- `evaluateOutcome` (main.go 459-471): `1` on any counter mismatch, `0`
otherwise; `main` passes this value to `os.Exit` (main.go 170). -/
def evaluateOutcome (summary : Summary) (expected : Expected) : Int :=
  if summary.Successes ≠ expected.Successes ∨ summary.Failures ≠ expected.Failures ∨
      summary.Timeouts ≠ expected.Timeouts then 1
  else 0

/-- The `end_node` defaulting in the runner loop (main.go 158-160):
`if step.EndNode == 0 { step.EndNode = step.OnNode }`. -/
def defaultEndNode (step : Step) : Step :=
  if step.EndNode = 0 then { step with EndNode := step.OnNode } else step

/-- One repetition's step loop (main.go 157-162), from a given starting
environment: each step is defaulted and handled, threading the environment
and the summary. `stepResults` supplies, per step, the arrival-ordered
result stream of that step's remote invocations; write events are side
effects on external files, not program state, so the repetition returns
only the summary. -/
def runRepetitionEnv (steps : List Step) (stepResults : List (List StepResult))
    (env : List EnvEntry) (summary : Summary) : Option Summary :=
  match steps, stepResults with
  | [], _ => some summary
  | st :: rest, rs =>
    (handleStep (defaultEndNode st) (rs.headD []) env summary).bind (fun res =>
      runRepetitionEnv rest rs.tail res.1 res.2.1)

/-- The repetition loop of `main` (main.go 133-164): each iteration makes a
fresh empty environment (`env := make([]string, 0)`, main.go 156), runs the
step loop, and increments `TestsRan`; only the summary is threaded from one
repetition to the next. `oracle i` supplies repetition `i`'s per-step
result streams (the cluster abstracted). -/
def runTimes : Nat → (Nat → List (List StepResult)) → List Step → Summary → Option Summary
  | 0, _, _, summary => some summary
  | n + 1, oracle, steps, summary =>
    (runRepetitionEnv steps (oracle 0) [] summary).bind (fun s2 =>
      runTimes n (fun i => oracle (i + 1)) steps { s2 with TestsRan := s2.TestsRan + 1 })

/-! ## Theorems for the claims -/

/-- Claim C1. The claim says the invocation for each loop index `j` uses the
node handle at 1-based position `j`; the source (main.go 190) indexes
`pods.Items[step.OnNode-1]` for every `j`, so on a two-node range starting
at node 1 both invocations go to the first handle, while the spec's
contract (`specDispatchTargets`) sends the second one to the second
handle. -/
theorem dispatch_ignores_node_index :
    dispatchTargets [['p', '1'], ['p', '2']]
        { Name := [], OnNode := 1, EndNode := 2, CMD := [], Timeout := 0,
          Outputs := [], Assertions := [], WriteToFile := [] }
      = [['p', '1'], ['p', '1']] ∧
    specDispatchTargets [['p', '1'], ['p', '2']]
        { Name := [], OnNode := 1, EndNode := 2, CMD := [], Timeout := 0,
          Outputs := [], Assertions := [], WriteToFile := [] }
      = [['p', '1'], ['p', '2']] := by
  decide

/-- Claim C2. The claim says an output binding selects the captured line at
its declared line index; the source (main.go 210-215) selects `out[index]`
where `index` is the binding's position in the outputs list, so a single
binding declared with `line: 1` is bound to line 0 of the captured
output. -/
theorem outputs_bound_by_position :
    processOutputsFrom 0 [{ Line := 1, SaveTo := ['X'], SaveToFile := [] }]
        [['a'], ['b']] []
      = [serializeBinding ['X'] ['a']] ∧
    serializeBinding ['X'] ['a'] ≠ serializeBinding ['X'] ['b'] := by
  decide

/-- Claim C3. The claim says captured lines are stdout split on newline with
the trailing empty line stripped; the async path the step executor uses
(main.go 364) does not strip it, so stdout `"ok\n"` reaches the executor as
`["ok", ""]`, while the synchronous `runInPod` (main.go 405-406) does drop
the final piece. -/
theorem async_lines_keep_trailing_empty :
    runInPodAsyncLines ['o', 'k', '\n'] = [['o', 'k'], []] ∧
    runInPodLines ['o', 'k', '\n'] = [['o', 'k']] ∧
    runInPodAsyncLines ['o', 'k', '\n'] ≠ runInPodLines ['o', 'k', '\n'] := by
  decide

/-- Claim C4. The exit code computed by `evaluateOutcome` (which `main`
passes to `os.Exit`, main.go 170) is `0` exactly when all three summary
counters equal the expected counters, and is `1` (the only non-zero value)
otherwise. -/
theorem evaluateOutcome_zero_iff_counters_match (s : Summary) (e : Expected) :
    (evaluateOutcome s e = 0 ↔
      (s.Successes = e.Successes ∧ s.Failures = e.Failures ∧ s.Timeouts = e.Timeouts)) ∧
    (evaluateOutcome s e = 0 ∨ evaluateOutcome s e = 1) := by
  unfold evaluateOutcome
  split <;> rename_i h <;> simp <;> tauto

/-- Claim C6. A timed-out result increments `Summary.Timeouts` by exactly
one and produces no write event, no environment extension, and no
success/failure change (main.go 197-199), and the fan-in loop then
continues with the remaining results from the same summary-with-one-more-
timeout state. -/
theorem timedout_result_counts_timeout_only (step : Step) (r : StepResult)
    (rest : List StepResult) (env : List EnvEntry) (summary : Summary)
    (h : r.timedOut = true) :
    processResult step r env summary
      = some (env, { summary with Timeouts := summary.Timeouts + 1 }, []) ∧
    handleResults step (r :: rest) env summary
      = handleResults step rest env { summary with Timeouts := summary.Timeouts + 1 } := by
  refine ⟨by simp [processResult, h], ?_⟩
  show (processResult step r env summary).bind _ = _
  simp only [processResult, h, if_true, Option.bind_some]
  cases h2 : handleResults step rest env { summary with Timeouts := summary.Timeouts + 1 } <;>
    simp [h2]

theorem timedout_result_counts_timeout_only_witness :
    processResult
        { Name := [], OnNode := 1, EndNode := 1, CMD := [], Timeout := 1,
          Outputs := [], Assertions := [], WriteToFile := ['f'] }
        { out := [['a']], timedOut := true } [['E', '=', '"', 'x', '"']]
        { Successes := 0, Failures := 0, TestsToRun := 1, TestsRan := 0, Timeouts := 0 }
      = some ([['E', '=', '"', 'x', '"']],
          { Successes := 0, Failures := 0, TestsToRun := 1, TestsRan := 0, Timeouts := 1 }, []) ∧
    handleResults
        { Name := [], OnNode := 1, EndNode := 1, CMD := [], Timeout := 1,
          Outputs := [], Assertions := [], WriteToFile := ['f'] }
        ({ out := [['a']], timedOut := true } :: []) [['E', '=', '"', 'x', '"']]
        { Successes := 0, Failures := 0, TestsToRun := 1, TestsRan := 0, Timeouts := 0 }
      = handleResults
        { Name := [], OnNode := 1, EndNode := 1, CMD := [], Timeout := 1,
          Outputs := [], Assertions := [], WriteToFile := ['f'] }
        [] [['E', '=', '"', 'x', '"']]
        { Successes := 0, Failures := 0, TestsToRun := 1, TestsRan := 0, Timeouts := 1 } :=
  timedout_result_counts_timeout_only _ _ _ _ _ rfl

/-- Claim C7. With timeout `0` the flag is never set, whatever the command's
duration (no timer is installed in main.go 347-359); with a positive
timeout `t`, a command that has not completed within `t` seconds (duration
beyond `t`, or never completing) is reported timed out. -/
theorem timeout_zero_never_flags :
    (∀ d, timeoutReached 0 d = false) ∧
    (∀ t d, 0 < t → t < d → timeoutReached t (some d) = true) ∧
    (∀ t, 0 < t → timeoutReached t none = true) := by
  refine ⟨fun d => rfl, fun t d ht hd => ?_, fun t ht => ?_⟩ <;>
    simp [timeoutReached, Nat.pos_iff_ne_zero.mp ht]
  exact hd

theorem timeout_zero_never_flags_witness :
    timeoutReached 0 (some 5) = false ∧ timeoutReached 1 (some 2) = true ∧
    timeoutReached 1 none = true :=
  ⟨timeout_zero_never_flags.1 (some 5),
   timeout_zero_never_flags.2.1 1 2 (by decide) (by decide),
   timeout_zero_never_flags.2.2 1 (by decide)⟩

/-- Claim C8. The repetition loop builds every repetition on the literal
empty environment (`env := make([]string, 0)`, main.go 156) and threads
only the summary into the next repetition, so a binding created in one
repetition is not visible in any later one; within a repetition, the first
step receives exactly the repetition's environment argument. -/
theorem env_reset_each_repetition (n : Nat) (oracle : Nat → List (List StepResult))
    (steps : List Step) (summary : Summary) :
    runTimes (n + 1) oracle steps summary
      = (runRepetitionEnv steps (oracle 0) [] summary).bind (fun s2 =>
          runTimes n (fun i => oracle (i + 1)) steps
            { s2 with TestsRan := s2.TestsRan + 1 }) ∧
    (∀ st rest rs env, runRepetitionEnv (st :: rest) rs env summary
      = (handleStep (defaultEndNode st) (rs.headD []) env summary).bind (fun res =>
          runRepetitionEnv rest rs.tail res.1 res.2.1)) :=
  ⟨rfl, fun _ _ _ _ => rfl⟩

/-- Claim C9. A step whose `EndNode` is zero is defaulted (main.go 158-160)
to `EndNode = OnNode`, so its node range is the single node `OnNode`. -/
theorem endNode_zero_defaults_to_onNode (step : Step) (h : step.EndNode = 0) :
    defaultEndNode step = { step with EndNode := step.OnNode } ∧
    numNodes (defaultEndNode step) = 1 ∧
    nodeRange (defaultEndNode step) = [step.OnNode] := by
  have h1 : defaultEndNode step = { step with EndNode := step.OnNode } := by
    simp [defaultEndNode, h]
  have h2 : numNodes (defaultEndNode step) = 1 := by
    rw [h1]
    show step.OnNode + 1 - step.OnNode = 1
    omega
  refine ⟨h1, h2, ?_⟩
  show List.range' (defaultEndNode step).OnNode (numNodes (defaultEndNode step))
    = [step.OnNode]
  rw [h2, h1]
  simp [List.range']

theorem endNode_zero_defaults_to_onNode_witness :
    defaultEndNode
        { Name := [], OnNode := 3, EndNode := 0, CMD := [], Timeout := 0,
          Outputs := [], Assertions := [], WriteToFile := [] }
      = { Name := [], OnNode := 3, EndNode := 3, CMD := [], Timeout := 0,
          Outputs := [], Assertions := [], WriteToFile := [] } ∧
    numNodes (defaultEndNode
        { Name := [], OnNode := 3, EndNode := 0, CMD := [], Timeout := 0,
          Outputs := [], Assertions := [], WriteToFile := [] }) = 1 ∧
    nodeRange (defaultEndNode
        { Name := [], OnNode := 3, EndNode := 0, CMD := [], Timeout := 0,
          Outputs := [], Assertions := [], WriteToFile := [] }) = [3] :=
  endNode_zero_defaults_to_onNode _ rfl

/-- Claim C10. The assertion target is interpolated unescaped into the
pattern `^target="(.*)"$` (main.go 231-234), so a target containing regex
metacharacters can resolve to the value of a binding whose name it does not
literally equal: here the target `.*` resolves to the value of the binding
named `X`. -/
theorem regex_target_matches_unequal_name :
    ∃ (target name value : List Char),
      ('.' ∈ target ∨ '*' ∈ target) ∧
      name ≠ target ∧
      value ≠ target ∧
      resolveTarget target [serializeBinding name value] = some value := by
  refine ⟨['.', '*'], ['X'], ['v'], ?_, ?_, ?_, ?_⟩ <;> decide

/-- Claim C5, counterexample. The claim says a target with no name-equal
binding resolves to the literal target; but the target `.` (no binding is
named `.`) resolves through the interpolated regex to the value of the
binding named `X`. -/
theorem resolver_name_equality_counterexample :
    resolveTarget ['.'] [serializeBinding ['X'] ['v']] = some ['v'] ∧
    (['X'] : List Char) ≠ ['.'] ∧ (['v'] : List Char) ≠ ['.'] := by
  decide

/-! ### The resolver on plain targets and well-formed bindings

For targets and binding names made of `PlainChar`s, the interpolated regex
`^target="(.*)"$` matches a serialized binding exactly when the binding's
name equals the target, and the greedy capture recovers the binding's
value. -/

theorem capAfterEq_cons_of_ne {c : Char} (l : List Char) (h : c ≠ '=') :
    capAfterEq (c :: l) = none := by
  cases l <;> simp [capAfterEq, h]

theorem capAfterEq_serialized (v : List Char) (hv : '\n' ∉ v) :
    capAfterEq ('=' :: '"' :: (v ++ ['"'])) = some v := by
  simp [capAfterEq, List.getLast?_concat, List.dropLast_concat, hv]

theorem parseRex_plain : ∀ (t : List Char), (∀ c ∈ t, PlainChar c) →
    parseRex t = some (litElems t)
  | [], _ => rfl
  | c :: rest, ht => by
    have hc := ht c (by simp)
    have hcond : ¬ (unmodeledChar c = true ∨ c = '*') := by
      simp [hc.1, hc.2.2.1]
    match rest with
    | [] => simp [parseRex, litElems, hcond, hc.2.1]
    | d :: r2 =>
      have hd := ht d (by simp)
      have ih := parseRex_plain (d :: r2) (fun x hx => ht x (by simp [hx]))
      simp [parseRex, litElems, hcond, hc.2.1, hd.2.2.1, ih]

theorem findCap_serialized : ∀ (t n v : List Char),
    (∀ c ∈ t, PlainChar c) → (∀ c ∈ n, PlainChar c) → '\n' ∉ v →
    findCap (litElems t) (serializeBinding n v) = if t = n then some v else none
  | [], n, v, _, hn, hv => by
    match n with
    | [] =>
      have hcap : capAfterEq (serializeBinding [] v) = some v :=
        capAfterEq_serialized v hv
      simp [findCap, litElems, seqRems, List.findSome?, hcap]
    | c :: n' =>
      have hc := hn c (by simp)
      have hcap : capAfterEq (serializeBinding (c :: n') v) = none :=
        capAfterEq_cons_of_ne _ hc.2.2.2.1
      simp [findCap, litElems, seqRems, List.findSome?, hcap]
  | a :: t', n, v, ht, hn, hv => by
    have ha := ht a (by simp)
    match n with
    | [] =>
      have : matchAtom (RAtom.lit a) '=' = false := by
        simp [matchAtom, ha.2.2.2.1]
      simp [findCap, litElems, seqRems, serializeBinding, this, List.findSome?]
    | c :: n' =>
      have ih := findCap_serialized t' n' v (fun x hx => ht x (by simp [hx]))
        (fun x hx => hn x (by simp [hx])) hv
      by_cases hac : a = c
      · subst hac
        have hm : matchAtom (RAtom.lit a) a = true := by simp [matchAtom]
        have hser : serializeBinding (a :: n') v = a :: serializeBinding n' v := rfl
        rw [hser]
        show (seqRems (RElem.one (RAtom.lit a) :: litElems t')
            (a :: serializeBinding n' v)).findSome? capAfterEq = _
        rw [seqRems, if_pos hm]
        have : (seqRems (litElems t') (serializeBinding n' v)).findSome? capAfterEq
            = if t' = n' then some v else none := ih
        rw [this]
        by_cases htn : t' = n' <;> simp [htn]
      · have hm : matchAtom (RAtom.lit a) c = false := by simp [matchAtom, hac]
        have hser : serializeBinding (c :: n') v = c :: serializeBinding n' v := rfl
        have hne : (a :: t') ≠ (c :: n') := by simp [hac]
        rw [hser]
        show (seqRems (RElem.one (RAtom.lit a) :: litElems t')
            (c :: serializeBinding n' v)).findSome? capAfterEq = _
        rw [seqRems, if_neg (by simp [hm])]
        simp [List.findSome?, hne]

theorem scanEnv_serialized : ∀ (t : List Char) (bs : List (List Char × List Char)),
    (∀ c ∈ t, PlainChar c) →
    (∀ b ∈ bs, (∀ c ∈ b.1, PlainChar c) ∧ '\n' ∉ b.2) →
    scanEnv (litElems t) (bs.map (fun b => serializeBinding b.1 b.2))
      = specScan t bs
  | _, [], _, _ => rfl
  | t, b :: rest, ht, hb => by
    have hbb := hb b (by simp)
    have ih := scanEnv_serialized t rest ht (fun x hx => hb x (by simp [hx]))
    have hfc := findCap_serialized t b.1 b.2 ht hbb.1 hbb.2
    show (match findCap (litElems t) (serializeBinding b.1 b.2) with
      | some cap => if cap = [] then
          scanEnv (litElems t)
            (rest.map (fun x : List Char × List Char => serializeBinding x.1 x.2))
          else cap
      | none => scanEnv (litElems t)
          (rest.map (fun x : List Char × List Char => serializeBinding x.1 x.2))) = _
    rw [hfc]
    by_cases htn : t = b.1
    · rw [if_pos htn]
      show (if b.2 = [] then scanEnv (litElems t)
          (rest.map (fun x : List Char × List Char => serializeBinding x.1 x.2))
        else b.2) = specScan t (b :: rest)
      rw [specScan]
      by_cases hval : b.2 = []
      · rw [if_pos hval, ih, if_neg (fun hcon => hcon.2 hval)]
      · rw [if_neg hval, if_pos ⟨htn.symm, hval⟩]
    · rw [if_neg htn]
      show scanEnv (litElems t)
          (rest.map (fun x : List Char × List Char => serializeBinding x.1 x.2))
        = specScan t (b :: rest)
      rw [specScan, ih, if_neg (fun hcon => htn hcon.1.symm)]

theorem specResolve_eq_scan (t : List Char) :
    ∀ bs : List (List Char × List Char),
      specResolve t bs = (if specScan t bs = [] then t else specScan t bs)
  | [] => rfl
  | b :: bs => by
    rw [specResolve, specScan]
    by_cases hc : b.1 = t ∧ b.2 ≠ []
    · rw [if_pos hc, if_pos hc, if_neg hc.2]
    · rw [if_neg hc, if_neg hc, specResolve_eq_scan t bs]

/-- Claim C5, amended: for assertion targets made of plain characters (no
regex metacharacters, no `=`, quote, or newline) and an environment of
serialized bindings whose names are likewise plain and whose values contain
no newline, the resolver returns the value of the first binding in
environment order whose name equals the target and whose value is
non-empty, and the literal target when no such binding exists (the
spec-side `specResolve`). -/
theorem resolver_first_nonempty_name_match (t : List Char)
    (bs : List (List Char × List Char))
    (ht : ∀ c ∈ t, PlainChar c)
    (hb : ∀ b ∈ bs, (∀ c ∈ b.1, PlainChar c) ∧ '\n' ∉ b.2) :
    resolveTarget t (bs.map (fun b => serializeBinding b.1 b.2))
      = some (specResolve t bs) := by
  rw [resolveTarget, parseRex_plain t ht, Option.map_some']
  simp only [scanEnv_serialized t bs ht hb, specResolve_eq_scan t bs]

theorem resolver_first_nonempty_name_match_witness :
    resolveTarget ['A'] ([(['B'], ['x']), (['A'], ['y']), (['A'], ['z'])].map
        (fun b => serializeBinding b.1 b.2))
      = some (specResolve ['A'] [(['B'], ['x']), (['A'], ['y']), (['A'], ['z'])]) ∧
    specResolve ['A'] [(['B'], ['x']), (['A'], ['y']), (['A'], ['z'])] = ['y'] :=
  ⟨resolver_first_nonempty_name_match _ _ (by decide) (by decide), by decide⟩

end KIPFS
